/-
Verification of the `tfin` discrete-event simulation engine and its
accounting collaborator against its natural-language specification.

The definitions below are a shallow embedding of `src/tfin/engine.py`
and `src/tfin/accounting.py`:

* Python machine state (the `Engine` object's mutable fields) becomes an
  explicit `Engine` record threaded through the operations.
* The `heapq` priority queue is modelled as a list kept sorted by
  `timestep`; `heappush` is ordered insertion and `heappop` removes the
  head.  This realises exactly the contract the engine relies on:
  `heappop` returns an element with minimal `timestep` (dataclass
  `QueueItem` compares by `timestep` only, `compare=False` on `event`).
* An event's `call` generator is modelled by the data it determines: the
  list of values it yields (possibly `None` entries) followed by how it
  finishes (normal exhaustion, or raising an exception).  Exceptions are
  modelled by `PyExc`: `StopEngineError` is a subclass of `EventError`,
  captured by the `isStop` flag on the `eventError` constructor, and any
  other exception by `other`.
* `Engine.run` is given explicit fuel (the loop may diverge when events
  keep scheduling follow-ons); running out of fuel is a distinguished
  result.  As ghost instrumentation, the run loop also returns the trace
  of dispatched events as `(timestep, now after dispatch)` pairs; the
  trace does not influence the computation.
* Ledger balances, which the source stores as Python `float`s, are
  modelled as exact rationals (`ℚ`).  This substitution is faithful only
  to the branching structure of the accounting code (which fold runs,
  which branch of `call` is taken), not to the arithmetic itself: IEEE-754
  rounding is dropped, so exact-arithmetic identities about balance
  updates are NOT claimed over this model.
-/
import Mathlib

namespace TFin

/-! ## engine.py: states, statuses, errors -/

/-- `EngineState` enumeration (engine.py lines 34-42). -/
inductive EngineState where
  | WAITING
  | STOPPED
  | RUNNING
  | PAUSED
  | ABORTED
  | FINISHED
deriving DecidableEq, Repr

/-- `EngineStatus` named tuple: state plus message (engine.py lines 45-49). -/
structure EngineStatus where
  state : EngineState
  message : String
deriving DecidableEq, Repr

/-- A Python exception as dispatch can raise it.  `eventError true m` is a
`StopEngineError`, `eventError false m` a plain `EventError`; since
`StopEngineError` subclasses `EventError` (engine.py line 60), every
`eventError` value satisfies `isEventError`.  `other m` is any unrelated
exception (e.g. `ValueError`). -/
inductive PyExc where
  | eventError (isStop : Bool) (msg : String)
  | other (msg : String)
deriving DecidableEq, Repr

/-- `isinstance(e, StopEngineError)`. -/
def PyExc.isStopEngineError : PyExc → Bool
  | .eventError s _ => s
  | .other _ => false

/-- `isinstance(e, EventError)`; true of every `StopEngineError` because of
the subclass relation. -/
def PyExc.isEventError : PyExc → Bool
  | .eventError _ _ => true
  | .other _ => false

/-- `str(e)`: both error classes store their message via
`Exception.__init__(msg)`. -/
def PyExc.msg : PyExc → String
  | .eventError _ m => m
  | .other m => m

/-- How an event's `call` generator finishes after its yields: normal
exhaustion, or raising an exception. -/
inductive Outcome where
  | ok
  | raises (e : PyExc)
deriving DecidableEq, Repr

/-- A concrete event object: `timestep` and `name` attributes plus the
behaviour of its (overridable) `call` generator, given by the optional
events it yields in order and how it finishes afterwards
(engine.py lines 76-95). -/
inductive EventObj where
  | mk (timestep : Int) (name : String)
      (yields : List (Option EventObj)) (outcome : Outcome)

def EventObj.timestep : EventObj → Int
  | .mk t _ _ _ => t

def EventObj.name : EventObj → String
  | .mk _ n _ _ => n

def EventObj.yields : EventObj → List (Option EventObj)
  | .mk _ _ ys _ => ys

def EventObj.outcome : EventObj → Outcome
  | .mk _ _ _ o => o

/-- A Python value handed to `schedule`: either an object satisfying the
`EventLike` protocol (`timestep`, `name`, `call`), or anything else
(a dict, a string, a number, ...). -/
inductive Value where
  | ev (e : EventObj)
  | raw (repr : String)

/-- `isinstance(value, EventLike)` for the runtime-checkable protocol
(engine.py lines 64-73): structural presence of `timestep`, `name`,
`call`. -/
def isEventLike : Value → Bool
  | .ev _ => true
  | .raw _ => false

/-- `QueueItem` dataclass: ordered by `timestep` only, `event` excluded from
comparison (engine.py lines 98-101). -/
structure QueueItem where
  timestep : Int
  event : EventObj

/-- `heapq.heappush` on a queue of `QueueItem`s, modelled as ordered
insertion into a `timestep`-sorted list: the new item goes before the
first strictly greater element. -/
def heappush : List QueueItem → QueueItem → List QueueItem
  | [], item => [item]
  | x :: xs, item =>
      if item.timestep < x.timestep then item :: x :: xs
      else x :: heappush xs item

/-- The `Engine` dataclass with its `__post_init__` fields
(engine.py lines 104-119). -/
structure Engine where
  name : String
  now : Int
  queue : List QueueItem
  status : EngineStatus

/-- `Engine()` freshly constructed: `now = 0`, empty queue, status
`(WAITING, "Initialized")`. -/
def Engine.init (name : String) : Engine :=
  { name := name, now := 0, queue := [], status := ⟨.WAITING, "Initialized"⟩ }

/-- `Engine.state` accessor. -/
def Engine.state (self : Engine) : EngineState :=
  self.status.state

/-- `Engine.message` accessor. -/
def Engine.message (self : Engine) : String :=
  self.status.message

/-- `Engine.set_status`. -/
def Engine.set_status (self : Engine) (state : EngineState) (message : String) :
    Engine :=
  { self with status := ⟨state, message⟩ }

/-- `Engine.stop` (engine.py lines 154-156). -/
def Engine.stop (self : Engine) (msg : String) : Engine :=
  self.set_status .STOPPED msg

/-- `Engine.abort` (engine.py lines 158-160). -/
def Engine.abort (self : Engine) (msg : String) : Engine :=
  self.set_status .ABORTED msg

/-- `Engine.finish` (engine.py lines 162-164). -/
def Engine.finish (self : Engine) (msg : String) : Engine :=
  self.set_status .FINISHED msg

/-- Python `timestep or event.timestep` where `timestep : Optional[int]`:
`None` and `0` are falsy, any other integer is truthy. -/
def pyOr (timestep : Option Int) (default : Int) : Int :=
  match timestep with
  | none => default
  | some x => if x = 0 then default else x

/-- `Engine.schedule(event, timestep=None)` (engine.py lines 147-152):
values failing the `EventLike` isinstance check are silently dropped;
otherwise the effective timestep is `timestep or event.timestep` and the
item is pushed onto the heap. -/
def Engine.schedule (self : Engine) (event : Value) (timestep : Option Int) :
    Engine :=
  match event with
  | .ev e => { self with queue := heappush self.queue ⟨pyOr timestep e.timestep, e⟩ }
  | .raw _ => self

/-- The `for evt in event.call(): if evt: self.schedule(evt)` loop of
`consume_event`, applied to the yields that occur before the generator
finishes: `None` entries are skipped, events are scheduled with no
timestep override. -/
def Engine.scheduleYields (self : Engine) (ys : List (Option EventObj)) : Engine :=
  ys.foldl
    (fun eng oe =>
      match oe with
      | some e => eng.schedule (.ev e) none
      | none => eng)
    self

/-- What `consume_event` reports back to the run loop: `cont` is the
`return True` of normal completion, `halt` the falsy `None` return after
catching one of the two event errors, `exc` an uncaught exception
propagating. -/
inductive ConsumeSignal where
  | cont
  | halt
  | exc (e : PyExc)
deriving Repr

/-- `Engine.consume_event` (engine.py lines 195-211): drain the generator,
scheduling yielded events; then `except StopEngineError` first (STOPPED),
`except EventError` second (ABORTED); any other exception is not caught.
Note the exact message formats: `"at t "` with a space in the stop case,
`"at t"` without in the abort case. -/
def Engine.consume_event (self : Engine) (event : EventObj) :
    Engine × ConsumeSignal :=
  let eng := self.scheduleYields event.yields
  match event.outcome with
  | .ok => (eng, .cont)
  | .raises e =>
      if e.isStopEngineError then
        (eng.stop ("Simulation was stopped by event " ++ event.name ++
          " at t " ++ toString eng.now ++ ": " ++ e.msg), .halt)
      else if e.isEventError then
        (eng.abort ("Simulation was aborted by event " ++ event.name ++
          " at t" ++ toString eng.now ++ ": " ++ e.msg), .halt)
      else
        (eng, .exc e)

/-- How `run` returns: normal `return`, an uncaught exception propagating
out of `run`, or fuel exhaustion (the Python loop would still be
running). -/
inductive RunResult where
  | normal (eng : Engine)
  | raised (eng : Engine) (e : PyExc)
  | outOfFuel (eng : Engine)

/-- The engine carried by a `RunResult`. -/
def RunResult.engine : RunResult → Engine
  | .normal eng => eng
  | .raised eng _ => eng
  | .outOfFuel eng => eng

/-- The guard `stop_at is not None and timestep > stop_at` of the run loop,
returning the exceeded limit when it fires. -/
def exceededLimit (stop_at : Option Int) (timestep : Int) : Option Int :=
  match stop_at with
  | some s => if timestep > s then some s else none
  | none => none

/-- The `while True` loop of `Engine.run` (engine.py lines 177-193), with
explicit fuel and a ghost dispatch trace of `(timestep, now after
dispatch)` pairs.  Each iteration: if the queue is empty, finish; pop the
minimum item; if its timestep exceeds `stop_at`, freeze `now` at
`stop_at`, stop and return (the popped item is discarded); otherwise set
`now` to the item's timestep and consume the event, returning unless it
signalled continuation. -/
def runLoop (stop_at : Option Int) : Nat → Engine → RunResult × List (Int × Int)
  | 0, eng => (.outOfFuel eng, [])
  | fuel + 1, eng =>
    match eng.queue with
    | [] => (.normal (eng.finish ("Simulation finished at " ++ toString eng.now)), [])
    | item :: rest =>
      let eng1 : Engine := { eng with queue := rest }
      match exceededLimit stop_at item.timestep with
      | some s =>
          (.normal (({ eng1 with now := s }).stop
            ("Simulation max time " ++ toString s ++ " exceeded")), [])
      | none =>
          let eng2 : Engine := { eng1 with now := item.timestep }
          match eng2.consume_event item.event with
          | (eng3, .cont) =>
              let r := runLoop stop_at fuel eng3
              (r.1, (item.timestep, eng3.now) :: r.2)
          | (eng3, .halt) => (.normal eng3, [(item.timestep, eng3.now)])
          | (eng3, .exc e) => (.raised eng3 e, [(item.timestep, eng3.now)])

/-- The status message set on entry to `run`:
`f"Stopping at {stop_at if stop_at else 'Never'}"` — note `stop_at = 0`
is falsy and prints `Never`. -/
def runMessage : Option Int → String
  | some s => if s = 0 then "Stopping at Never" else "Stopping at " ++ toString s
  | none => "Stopping at Never"

/-- `Engine.run(stop_at=None)` (engine.py lines 166-193): set status to
RUNNING with the stop message, then enter the loop. -/
def Engine.run (self : Engine) (stop_at : Option Int) (fuel : Nat) :
    RunResult × List (Int × Int) :=
  runLoop stop_at fuel (self.set_status .RUNNING (runMessage stop_at))

/-- Scheduling a list of events in order, each with no timestep override
(as a caller would before `run`). -/
def Engine.scheduleAll (self : Engine) (events : List EventObj) : Engine :=
  events.foldl (fun eng e => eng.schedule (.ev e) none) self

/-- The side condition of the amended C7: an event never schedules a stale
follow-on.  Every event its `call` yields carries a timestamp no earlier
than the yielding event's own timestamp — which is the engine clock at
the moment of the dispatch, since the run loop schedules yields with no
override — and recursively promises the same. -/
inductive NoStale : EventObj → Prop where
  | mk (t : Int) (n : String) (ys : List (Option EventObj)) (o : Outcome)
      (hle : ∀ e : EventObj, some e ∈ ys → t ≤ e.timestep)
      (hns : ∀ e : EventObj, some e ∈ ys → NoStale e) :
      NoStale (.mk t n ys o)

/-! ## accounting.py: accounts, debit/credit operator tables, transactions

The mutable `Account` objects are modelled by a `Ledger` record: a fixed
typing of account names to their `AccountType`, plus the current balance
of each named account.  Python `float` amounts are modelled by exact
rationals (`ℚ`), embedding the arithmetic `+`/`-` the code performs. -/

/-- `AccountType` enumeration (accounting.py lines 24-29). -/
inductive AccountType where
  | ASSET
  | LIABILITY
  | EQUITY
  | INCOME
  | EXPENSE
deriving DecidableEq, Repr

/-- `AssetLike.debit_op = float.__add__` (accounting.py line 79), with the
float addition idealised as exact `ℚ` addition (rounding dropped; see the
header note — no arithmetic-identity property is claimed over this). -/
def AssetLike.debit_op (balance amount : ℚ) : ℚ := balance + amount

/-- `AssetLike.credit_op = float.__sub__` (accounting.py line 80), float
subtraction idealised as exact `ℚ` subtraction. -/
def AssetLike.credit_op (balance amount : ℚ) : ℚ := balance - amount

/-- `LiabilityLike.debit_op = float.__sub__` (accounting.py line 86), float
subtraction idealised as exact `ℚ` subtraction. -/
def LiabilityLike.debit_op (balance amount : ℚ) : ℚ := balance - amount

/-- `LiabilityLike.credit_op = float.__add__` (accounting.py line 87), float
addition idealised as exact `ℚ` addition. -/
def LiabilityLike.credit_op (balance amount : ℚ) : ℚ := balance + amount

/-- The `debit_op` each concrete `Account` subclass inherits from its mixin:
`Asset` and `Expense` are `AssetLike`, `Liability`, `Equity` and `Income`
are `LiabilityLike` (accounting.py lines 90-117). -/
def debit_op : AccountType → ℚ → ℚ → ℚ
  | .ASSET => AssetLike.debit_op
  | .EXPENSE => AssetLike.debit_op
  | .LIABILITY => LiabilityLike.debit_op
  | .EQUITY => LiabilityLike.debit_op
  | .INCOME => LiabilityLike.debit_op

/-- The `credit_op` each concrete `Account` subclass inherits from its
mixin. -/
def credit_op : AccountType → ℚ → ℚ → ℚ
  | .ASSET => AssetLike.credit_op
  | .EXPENSE => AssetLike.credit_op
  | .LIABILITY => LiabilityLike.credit_op
  | .EQUITY => LiabilityLike.credit_op
  | .INCOME => LiabilityLike.credit_op

/-- The collection of `Account` objects a transaction's items refer to:
each account name has a fixed type (its class) and a current mutable
balance. -/
structure Ledger where
  account_type : String → AccountType
  balance : String → ℚ

/-- `Account.debit(amount)` (accounting.py lines 67-69):
`set_balance(debit_op(balance, amount))` on the named account. -/
def Ledger.debit (L : Ledger) (acct : String) (amount : ℚ) : Ledger :=
  { L with
    balance := fun n =>
      if n = acct then debit_op (L.account_type acct) (L.balance acct) amount
      else L.balance n }

/-- `Account.credit(amount)` (accounting.py lines 71-73). -/
def Ledger.credit (L : Ledger) (acct : String) (amount : ℚ) : Ledger :=
  { L with
    balance := fun n =>
      if n = acct then credit_op (L.account_type acct) (L.balance acct) amount
      else L.balance n }

/-- `TransactionItem` dataclass: an account reference and an amount
(accounting.py lines 241-246). -/
structure TransactionItem where
  account : String
  amount : ℚ

/-- The `Transaction` event (accounting.py lines 249-335), with its stored
debit and credit item lists. -/
structure Transaction where
  timestamp : Int
  name : String
  debits : List TransactionItem
  credits : List TransactionItem

/-- `Transaction.total_debits`. -/
def Transaction.total_debits (t : Transaction) : ℚ :=
  (t.debits.map TransactionItem.amount).sum

/-- `Transaction.total_credits`. -/
def Transaction.total_credits (t : Transaction) : ℚ :=
  (t.credits.map TransactionItem.amount).sum

/-- `Transaction.is_balanced`: `total_credits == total_debits`. -/
def Transaction.is_balanced (t : Transaction) : Bool :=
  t.total_credits == t.total_debits

/-- `Transaction.call` (accounting.py lines 326-335): if the transaction is
not balanced, return without touching any account; otherwise credit every
credit item's account, then debit every debit item's account. -/
def Transaction.call (t : Transaction) (L : Ledger) : Ledger :=
  if !t.is_balanced then L
  else
    let L1 := t.credits.foldl (fun acc item => acc.credit item.account item.amount) L
    t.debits.foldl (fun acc item => acc.debit item.account item.amount) L1

/-! ## Helper lemmas about the queue -/

theorem heappush_perm (q : List QueueItem) (item : QueueItem) :
    (heappush q item).Perm (item :: q) := by
  induction q with
  | nil => simp [heappush]
  | cons x xs ih =>
    by_cases hlt : item.timestep < x.timestep
    · simp [heappush, hlt]
    · rw [heappush, if_neg hlt]
      exact (ih.cons x).trans (List.Perm.swap item x xs)

theorem heappush_sorted {q : List QueueItem} (item : QueueItem)
    (h : q.Sorted (fun a b => a.timestep ≤ b.timestep)) :
    (heappush q item).Sorted (fun a b => a.timestep ≤ b.timestep) := by
  induction q with
  | nil => simp [heappush]
  | cons x xs ih =>
    rw [List.sorted_cons] at h
    obtain ⟨hx, hxs⟩ := h
    by_cases hlt : item.timestep < x.timestep
    · rw [heappush, if_pos hlt, List.sorted_cons]
      refine ⟨?_, (List.sorted_cons).mpr ⟨hx, hxs⟩⟩
      intro b hb
      rcases List.mem_cons.mp hb with hb | hb
      · exact hb ▸ le_of_lt hlt
      · exact le_trans (le_of_lt hlt) (hx b hb)
    · rw [heappush, if_neg hlt, List.sorted_cons]
      refine ⟨?_, ih hxs⟩
      intro b hb
      rcases List.mem_cons.mp ((heappush_perm xs item).mem_iff.mp hb) with hb | hb
      · exact hb ▸ le_of_not_lt hlt
      · exact hx b hb

/-! ## Helper lemmas: `schedule` and `consume_event` touch only what they
must -/

theorem schedule_now (eng : Engine) (v : Value) (t : Option Int) :
    (eng.schedule v t).now = eng.now := by
  cases v <;> rfl

theorem schedule_status (eng : Engine) (v : Value) (t : Option Int) :
    (eng.schedule v t).status = eng.status := by
  cases v <;> rfl

theorem scheduleYields_now (ys : List (Option EventObj)) :
    ∀ eng : Engine, (eng.scheduleYields ys).now = eng.now := by
  induction ys with
  | nil => intro eng; rfl
  | cons y ys ih =>
    intro eng
    cases y with
    | some e => exact (ih (eng.schedule (.ev e) none)).trans (schedule_now eng _ none)
    | none => exact ih eng

theorem scheduleYields_status (ys : List (Option EventObj)) :
    ∀ eng : Engine, (eng.scheduleYields ys).status = eng.status := by
  induction ys with
  | nil => intro eng; rfl
  | cons y ys ih =>
    intro eng
    cases y with
    | some e => exact (ih (eng.schedule (.ev e) none)).trans (schedule_status eng _ none)
    | none => exact ih eng

theorem consume_event_now (eng : Engine) (ev : EventObj) :
    (eng.consume_event ev).1.now = eng.now := by
  rw [Engine.consume_event]
  cases ev.outcome with
  | ok => exact scheduleYields_now ev.yields eng
  | raises e =>
    by_cases hs : e.isStopEngineError
    · simp only [hs, if_pos]
      exact scheduleYields_now ev.yields eng
    · by_cases he : e.isEventError
      · simp only [hs, he, if_neg, if_pos, Bool.false_eq_true, not_false_eq_true]
        exact scheduleYields_now ev.yields eng
      · simp only [hs, he, if_neg, Bool.false_eq_true, not_false_eq_true]
        exact scheduleYields_now ev.yields eng

/-- A trivial event (no yields, normal exhaustion) leaves the engine
untouched and signals continuation. -/
theorem consume_event_trivial (eng : Engine) (ev : EventObj)
    (h1 : ev.yields = []) (h2 : ev.outcome = .ok) :
    eng.consume_event ev = (eng, .cont) := by
  rw [Engine.consume_event, h1, h2]
  rfl

/-! ## Helper lemmas: `scheduleAll` -/

theorem scheduleAll_queue_perm (events : List EventObj) :
    ∀ eng : Engine,
      (eng.scheduleAll events).queue.Perm
        (eng.queue ++ events.map (fun e => ⟨e.timestep, e⟩)) := by
  induction events with
  | nil => intro eng; simp [Engine.scheduleAll]
  | cons e es ih =>
    intro eng
    have step : eng.scheduleAll (e :: es) =
        (eng.schedule (.ev e) none).scheduleAll es := rfl
    rw [step]
    refine (ih (eng.schedule (.ev e) none)).trans ?_
    have hq : (eng.schedule (.ev e) none).queue =
        heappush eng.queue ⟨e.timestep, e⟩ := rfl
    rw [hq, List.map_cons]
    refine (List.Perm.append_right _ (heappush_perm eng.queue ⟨e.timestep, e⟩)).trans ?_
    exact List.perm_middle.symm

theorem scheduleAll_sorted (events : List EventObj) :
    ∀ eng : Engine,
      eng.queue.Sorted (fun a b => a.timestep ≤ b.timestep) →
      (eng.scheduleAll events).queue.Sorted (fun a b => a.timestep ≤ b.timestep) := by
  induction events with
  | nil => intro eng h; exact h
  | cons e es ih =>
    intro eng h
    exact ih (eng.schedule (.ev e) none) (heappush_sorted _ h)

theorem scheduleAll_status (events : List EventObj) :
    ∀ eng : Engine, (eng.scheduleAll events).status = eng.status := by
  induction events with
  | nil => intro eng; rfl
  | cons e es ih =>
    intro eng
    exact (ih (eng.schedule (.ev e) none)).trans (schedule_status eng _ none)

/-! ## Helper lemma: the run loop over a queue of trivial events dispatches
exactly the queue, in queue order -/

theorem runLoop_trivial (q : List QueueItem) :
    ∀ (fuel : Nat) (eng : Engine),
      eng.queue = q →
      (∀ i ∈ q, i.event.yields = [] ∧ i.event.outcome = .ok) →
      q.length < fuel →
      ∃ eng', runLoop none fuel eng =
        (.normal eng', q.map (fun i => (i.timestep, i.timestep))) := by
  induction q with
  | nil =>
    intro fuel eng hq _ hfuel
    match fuel, hfuel with
    | fuel + 1, _ =>
      refine ⟨eng.finish ("Simulation finished at " ++ toString eng.now), ?_⟩
      rw [runLoop, hq]
      rfl
  | cons i rest ih =>
    intro fuel eng hq htriv hfuel
    match fuel, hfuel with
    | fuel + 1, hfuel =>
      have hi := htriv i (List.mem_cons_self i rest)
      have htriv' : ∀ j ∈ rest, j.event.yields = [] ∧ j.event.outcome = .ok :=
        fun j hj => htriv j (List.mem_cons_of_mem i hj)
      have hfuel' : rest.length < fuel := by
        simpa [List.length_cons] using Nat.lt_of_succ_lt_succ hfuel
      set eng2 : Engine :=
        { eng with queue := rest, now := i.timestep } with heng2
      obtain ⟨eng', hrun⟩ := ih fuel eng2 rfl htriv' hfuel'
      refine ⟨eng', ?_⟩
      rw [runLoop, hq]
      simp only [exceededLimit]
      rw [consume_event_trivial _ _ hi.1 hi.2]
      simp only [List.map_cons]
      rw [hrun]

/-! ## Helper lemmas: one iteration of the run loop, by case -/

theorem consume_event_stop (eng : Engine) (ev : EventObj) (e : PyExc)
    (hout : ev.outcome = .raises e) (hs : e.isStopEngineError = true) :
    eng.consume_event ev =
      ((eng.scheduleYields ev.yields).stop
        ("Simulation was stopped by event " ++ ev.name ++ " at t " ++
          toString (eng.scheduleYields ev.yields).now ++ ": " ++ e.msg), .halt) := by
  rw [Engine.consume_event, hout]
  simp only [hs, if_pos]

theorem consume_event_abort (eng : Engine) (ev : EventObj) (e : PyExc)
    (hout : ev.outcome = .raises e) (hs : e.isStopEngineError = false)
    (he : e.isEventError = true) :
    eng.consume_event ev =
      ((eng.scheduleYields ev.yields).abort
        ("Simulation was aborted by event " ++ ev.name ++ " at t" ++
          toString (eng.scheduleYields ev.yields).now ++ ": " ++ e.msg), .halt) := by
  rw [Engine.consume_event, hout]
  simp only [hs, he, Bool.false_eq_true, if_false, if_pos]

/-- An exception that is not an `EventError` cannot be a `StopEngineError`
either (the latter subclasses the former). -/
theorem PyExc.isStop_false_of_isEventError_false (e : PyExc)
    (he : e.isEventError = false) : e.isStopEngineError = false := by
  cases e with
  | eventError s m => exact absurd he (by simp [PyExc.isEventError])
  | other m => rfl

theorem consume_event_exc (eng : Engine) (ev : EventObj) (e : PyExc)
    (hout : ev.outcome = .raises e) (he : e.isEventError = false) :
    eng.consume_event ev = (eng.scheduleYields ev.yields, .exc e) := by
  have hs := PyExc.isStop_false_of_isEventError_false e he
  rw [Engine.consume_event, hout]
  simp only [hs, he, Bool.false_eq_true, if_false]

theorem runLoop_step_cutoff (eng : Engine) (item : QueueItem)
    (rest : List QueueItem) (stop_at : Option Int) (s : Int) (fuel : Nat)
    (hq : eng.queue = item :: rest)
    (hcut : exceededLimit stop_at item.timestep = some s) :
    runLoop stop_at (fuel + 1) eng =
      (.normal { eng with
          queue := rest
          now := s
          status := ⟨.STOPPED, "Simulation max time " ++ toString s ++ " exceeded"⟩ },
       []) := by
  rw [runLoop, hq]
  simp only [hcut]
  rfl

theorem runLoop_step_halt (eng : Engine) (item : QueueItem)
    (rest : List QueueItem) (stop_at : Option Int) (fuel : Nat) (eng3 : Engine)
    (hq : eng.queue = item :: rest)
    (hcut : exceededLimit stop_at item.timestep = none)
    (hcons : ({ eng with queue := rest, now := item.timestep } : Engine).consume_event
      item.event = (eng3, .halt)) :
    runLoop stop_at (fuel + 1) eng = (.normal eng3, [(item.timestep, eng3.now)]) := by
  rw [runLoop, hq]
  simp only [hcut, hcons]

theorem runLoop_step_exc (eng : Engine) (item : QueueItem)
    (rest : List QueueItem) (stop_at : Option Int) (fuel : Nat) (eng3 : Engine)
    (e : PyExc)
    (hq : eng.queue = item :: rest)
    (hcut : exceededLimit stop_at item.timestep = none)
    (hcons : ({ eng with queue := rest, now := item.timestep } : Engine).consume_event
      item.event = (eng3, .exc e)) :
    runLoop stop_at (fuel + 1) eng = (.raised eng3 e, [(item.timestep, eng3.now)]) := by
  rw [runLoop, hq]
  simp only [hcut, hcons]

theorem runLoop_step_cont (eng : Engine) (item : QueueItem)
    (rest : List QueueItem) (stop_at : Option Int) (fuel : Nat) (eng3 : Engine)
    (hq : eng.queue = item :: rest)
    (hcut : exceededLimit stop_at item.timestep = none)
    (hcons : ({ eng with queue := rest, now := item.timestep } : Engine).consume_event
      item.event = (eng3, .cont)) :
    runLoop stop_at (fuel + 1) eng =
      ((runLoop stop_at fuel eng3).1,
       (item.timestep, eng3.now) :: (runLoop stop_at fuel eng3).2) := by
  rw [runLoop, hq]
  simp only [hcut, hcons]

/-! ## Helper lemmas for the clock-monotonicity analysis -/

/-- Inversion for `NoStale`: every yielded event is no earlier than the
yielding event's own timestep and is itself `NoStale`. -/
theorem NoStale.yields (ev : EventObj) (h : NoStale ev) :
    ∀ e : EventObj, some e ∈ ev.yields → ev.timestep ≤ e.timestep ∧ NoStale e := by
  cases h with
  | mk t n ys o hle hns => exact fun e he => ⟨hle e he, hns e he⟩

/-- If the cutoff guard does not fire under a set stop time, the popped
timestep is within the limit. -/
theorem exceededLimit_le {s t : Int} (h : exceededLimit (some s) t = none) :
    t ≤ s := by
  rw [exceededLimit] at h
  by_cases hgt : t > s
  · rw [if_pos hgt] at h
    cases h
  · exact not_lt.mp hgt

/-- If the cutoff guard fires, a stop time was set and it is the returned
limit. -/
theorem exceededLimit_eq_some {stop_at : Option Int} {t s : Int}
    (h : exceededLimit stop_at t = some s) : stop_at = some s := by
  cases stop_at with
  | none => simp [exceededLimit] at h
  | some s0 =>
    rw [exceededLimit] at h
    by_cases hgt : t > s0
    · rw [if_pos hgt] at h
      cases h
      rfl
    · rw [if_neg hgt] at h
      cases h

/-- `consume_event` leaves the queue exactly as the yields left it — the
error handlers touch only the status. -/
theorem consume_event_queue (eng : Engine) (ev : EventObj) :
    (eng.consume_event ev).1.queue = (eng.scheduleYields ev.yields).queue := by
  rw [Engine.consume_event]
  cases ev.outcome with
  | ok => rfl
  | raises e =>
    by_cases hs : e.isStopEngineError
    · simp only [hs, if_pos]
      rfl
    · by_cases he : e.isEventError
      · simp only [hs, he, Bool.false_eq_true, not_false_eq_true, if_neg, if_pos]
        rfl
      · simp only [hs, he, Bool.false_eq_true, not_false_eq_true, if_neg]

/-- Scheduling yields preserves sortedness of the queue. -/
theorem scheduleYields_sorted (ys : List (Option EventObj)) :
    ∀ eng : Engine,
      eng.queue.Sorted (fun a b => a.timestep ≤ b.timestep) →
      (eng.scheduleYields ys).queue.Sorted (fun a b => a.timestep ≤ b.timestep) := by
  induction ys with
  | nil => intro eng h; exact h
  | cons y ys ih =>
    intro eng h
    cases y with
    | some e => exact ih (eng.schedule (.ev e) none) (heappush_sorted _ h)
    | none => exact ih eng h

/-- Every item in the queue after scheduling yields was already in the
queue, or is one of the yielded events enqueued under its own
timestep. -/
theorem scheduleYields_queue_mem (ys : List (Option EventObj)) :
    ∀ (eng : Engine) (i : QueueItem), i ∈ (eng.scheduleYields ys).queue →
      i ∈ eng.queue ∨ ∃ e : EventObj, some e ∈ ys ∧ i = ⟨e.timestep, e⟩ := by
  induction ys with
  | nil => intro eng i hi; exact Or.inl hi
  | cons y ys ih =>
    intro eng i hi
    cases y with
    | some e =>
      rcases ih (eng.schedule (.ev e) none) i hi with hin | ⟨e', he', rfl⟩
      · have hin2 : i ∈ heappush eng.queue ⟨e.timestep, e⟩ := hin
        rcases List.mem_cons.mp
            ((heappush_perm eng.queue ⟨e.timestep, e⟩).mem_iff.mp hin2) with
          rfl | hin3
        · exact Or.inr ⟨e, List.mem_cons_self _ _, rfl⟩
        · exact Or.inl hin3
      · exact Or.inr ⟨e', List.mem_cons_of_mem _ he', rfl⟩
    | none =>
      rcases ih eng i hi with hin | ⟨e', he', rfl⟩
      · exact Or.inl hin
      · exact Or.inr ⟨e', List.mem_cons_of_mem _ he', rfl⟩

/-- Monotonicity of the clock over a whole run: if every queued item is at
or after the current clock, is enqueued under its event's own timestep,
and no event reachable through yields schedules a stale follow-on — and
the entry clock does not exceed a set stop limit — then the sequence of
values the clock takes, from the entry `now` through every dispatch
timestep to the final `now`, is non-decreasing. -/
theorem runLoop_monotone (fuel : Nat) :
    ∀ (stop_at : Option Int) (eng : Engine),
      eng.queue.Sorted (fun a b => a.timestep ≤ b.timestep) →
      (∀ i ∈ eng.queue,
        eng.now ≤ i.timestep ∧ i.timestep = i.event.timestep ∧ NoStale i.event) →
      (∀ s : Int, stop_at = some s → eng.now ≤ s) →
      List.Chain' (· ≤ ·)
        ((eng.now :: (runLoop stop_at fuel eng).2.map Prod.fst) ++
          [(runLoop stop_at fuel eng).1.engine.now]) := by
  induction fuel with
  | zero =>
    intro stop_at eng _ _ _
    rw [runLoop]
    exact List.chain'_pair.mpr le_rfl
  | succ fuel ih =>
    intro stop_at eng hsort hinv hstop
    rcases hq : eng.queue with _ | ⟨item, rest⟩
    · rw [runLoop, hq]
      exact List.chain'_pair.mpr le_rfl
    · have hhead := hinv item (hq ▸ List.mem_cons_self item rest)
      rcases hcut : exceededLimit stop_at item.timestep with _ | s
      · -- no cutoff: dispatch the event
        set eng2 : Engine := { eng with queue := rest, now := item.timestep }
          with heng2
        rcases hc : eng2.consume_event item.event with ⟨eng3, sig⟩
        have hnow3 : eng3.now = item.timestep := by
          have hcn := consume_event_now eng2 item.event
          rw [hc] at hcn
          exact hcn
        have hq3 : eng3.queue = (eng2.scheduleYields item.event.yields).queue := by
          have hcq := consume_event_queue eng2 item.event
          rw [hc] at hcq
          exact hcq
        have hrestsort : rest.Sorted (fun a b => a.timestep ≤ b.timestep) := by
          rw [hq, List.sorted_cons] at hsort
          exact hsort.2
        have hrestle : ∀ b ∈ rest, item.timestep ≤ b.timestep := by
          rw [hq, List.sorted_cons] at hsort
          exact hsort.1
        have hsort3 : eng3.queue.Sorted (fun a b => a.timestep ≤ b.timestep) := by
          rw [hq3]
          exact scheduleYields_sorted item.event.yields eng2 hrestsort
        have hinv3 : ∀ i ∈ eng3.queue,
            eng3.now ≤ i.timestep ∧ i.timestep = i.event.timestep ∧
              NoStale i.event := by
          intro i hi
          rw [hq3] at hi
          rcases scheduleYields_queue_mem item.event.yields eng2 i hi with
            hin | ⟨e, he, rfl⟩
          · have hi0 := hinv i (hq ▸ List.mem_cons_of_mem item hin)
            exact ⟨hnow3 ▸ hrestle i hin, hi0.2.1, hi0.2.2⟩
          · have hy := (NoStale.yields item.event hhead.2.2) e he
            refine ⟨?_, rfl, hy.2⟩
            rw [hnow3, hhead.2.1]
            exact hy.1
        have hstop3 : ∀ s : Int, stop_at = some s → eng3.now ≤ s := by
          intro s hs
          rw [hnow3]
          exact exceededLimit_le (hs ▸ hcut)
        have IH := ih stop_at eng3 hsort3 hinv3 hstop3
        cases sig with
        | cont =>
          rw [runLoop_step_cont eng item rest stop_at fuel eng3 hq hcut hc]
          rw [hnow3] at IH
          simp only [List.map_cons, List.cons_append]
          exact List.chain'_cons.mpr ⟨hhead.1, IH⟩
        | halt =>
          rw [runLoop_step_halt eng item rest stop_at fuel eng3 hq hcut hc]
          simp only [List.map_cons, List.map_nil, List.cons_append, List.nil_append]
          exact List.chain'_cons.mpr ⟨hhead.1,
            List.chain'_pair.mpr (le_of_eq hnow3.symm)⟩
        | exc e =>
          rw [runLoop_step_exc eng item rest stop_at fuel eng3 e hq hcut hc]
          simp only [List.map_cons, List.map_nil, List.cons_append, List.nil_append]
          exact List.chain'_cons.mpr ⟨hhead.1,
            List.chain'_pair.mpr (le_of_eq hnow3.symm)⟩
      · -- cutoff: the clock freezes at the stop limit
        rw [runLoop_step_cutoff eng item rest stop_at s fuel hq hcut]
        exact List.chain'_pair.mpr (hstop s (exceededLimit_eq_some hcut))

/-! ## Claims -/

/-- C1: For every finite set of events scheduled on a fresh Engine with
pairwise-distinct timestamps, `run()` with no stop time dispatches them in
strictly ascending timestamp order, and immediately after each event's
dispatch the Engine's `now` equals that event's timestamp.  (Events here
behave like the base `Event`: their `call` yields nothing and returns
normally, so the dispatched events are exactly the scheduled ones.)  The
ghost trace records `(timestep, now after dispatch)` for each dispatched
event: it is strictly ascending, a permutation of the scheduled
timestamps, and its `now` column equals its timestamp column. -/
theorem C1_run_dispatch_order
    (events : List EventObj) (fuel : Nat)
    (hdist : (events.map EventObj.timestep).Nodup)
    (htriv : ∀ e ∈ events, e.yields = [] ∧ e.outcome = .ok)
    (hfuel : events.length < fuel) :
    let r := ((Engine.init "Unnamed").scheduleAll events).run none fuel
    (r.2.map Prod.fst).Sorted (· < ·) ∧
    (r.2.map Prod.fst).Perm (events.map EventObj.timestep) ∧
    r.2.map Prod.snd = r.2.map Prod.fst := by
  intro r
  set eng0 : Engine := (Engine.init "Unnamed").scheduleAll events with heng0
  set engR : Engine := eng0.set_status .RUNNING (runMessage none) with hengR
  have hqR : engR.queue = eng0.queue := rfl
  have hqperm : eng0.queue.Perm (events.map (fun e => ⟨e.timestep, e⟩)) := by
    simpa [Engine.init] using scheduleAll_queue_perm events (Engine.init "Unnamed")
  have hsorted : eng0.queue.Sorted (fun a b => a.timestep ≤ b.timestep) := by
    exact scheduleAll_sorted events (Engine.init "Unnamed") (by simp [Engine.init])
  have htrivq : ∀ i ∈ eng0.queue, i.event.yields = [] ∧ i.event.outcome = .ok := by
    intro i hi
    rcases List.mem_map.mp (hqperm.mem_iff.mp hi) with ⟨e, he, rfl⟩
    exact htriv e he
  have hlen : eng0.queue.length < fuel := by
    rw [hqperm.length_eq, List.length_map]
    exact hfuel
  obtain ⟨eng', hrun⟩ := runLoop_trivial eng0.queue fuel engR hqR htrivq hlen
  have hr : r.2 = (eng0.queue.map (fun i => (i.timestep, i.timestep))) := by
    show (Engine.run eng0 none fuel).2 = _
    rw [Engine.run]
    rw [show eng0.set_status .RUNNING (runMessage none) = engR from rfl, hrun]
  have hfst : r.2.map Prod.fst = eng0.queue.map QueueItem.timestep := by
    rw [hr, List.map_map]
    rfl
  have hpermts : (r.2.map Prod.fst).Perm (events.map EventObj.timestep) := by
    rw [hfst]
    have := hqperm.map QueueItem.timestep
    rw [List.map_map] at this
    exact this
  refine ⟨?_, hpermts, ?_⟩
  · rw [hfst]
    have hle : (eng0.queue.map QueueItem.timestep).Sorted (· ≤ ·) :=
      List.pairwise_map.mpr hsorted
    have hnd : (eng0.queue.map QueueItem.timestep).Nodup := by
      have hperm2 : (events.map EventObj.timestep).Perm (eng0.queue.map QueueItem.timestep) := by
        rw [← hfst]
        exact hpermts.symm
      exact hperm2.nodup hdist
    exact hle.lt_of_le hnd
  · rw [hr, List.map_map, List.map_map]
    rfl

/-- C2: at any iteration of `run(stop_at)`, if the popped minimum event's
timestep strictly exceeds `stop_at` the engine sets `now = stop_at`,
transitions to STOPPED with a message citing the exceeded limit, and
returns with the popped event discarded (final queue is exactly the rest,
nothing dispatched, nothing re-inserted); if the popped event's timestep
is `≤ stop_at` (in particular equal to it) the event IS dispatched: it
heads the dispatch trace with `now` set to its timestep. -/
theorem C2_stop_at_cutoff
    (eng : Engine) (item : QueueItem) (rest : List QueueItem)
    (s : Int) (fuel : Nat)
    (hq : eng.queue = item :: rest) :
    (item.timestep > s →
      runLoop (some s) (fuel + 1) eng =
        (.normal { eng with
            queue := rest
            now := s
            status := ⟨.STOPPED, "Simulation max time " ++ toString s ++ " exceeded"⟩ },
         [])) ∧
    (item.timestep ≤ s →
      ∃ tail, (runLoop (some s) (fuel + 1) eng).2 =
        (item.timestep, item.timestep) :: tail) := by
  constructor
  · intro hgt
    exact runLoop_step_cutoff eng item rest (some s) s fuel hq
      (by simp [exceededLimit, hgt])
  · intro hle
    have hcut : exceededLimit (some s) item.timestep = none := by
      simp [exceededLimit, not_lt.mpr hle]
    set eng2 : Engine := { eng with queue := rest, now := item.timestep } with heng2
    have hnow : (eng2.consume_event item.event).1.now = item.timestep :=
      consume_event_now eng2 item.event
    rcases hc : eng2.consume_event item.event with ⟨eng3, sig⟩
    have hnow3 : eng3.now = item.timestep := by rw [hc] at hnow; exact hnow
    cases sig with
    | cont =>
      refine ⟨(runLoop (some s) fuel eng3).2, ?_⟩
      rw [runLoop_step_cont eng item rest (some s) fuel eng3 hq hcut hc, hnow3]
    | halt =>
      refine ⟨[], ?_⟩
      rw [runLoop_step_halt eng item rest (some s) fuel eng3 hq hcut hc, hnow3]
    | exc e =>
      refine ⟨[], ?_⟩
      rw [runLoop_step_exc eng item rest (some s) fuel eng3 e hq hcut hc, hnow3]

/-- Witness for C2 at the spec's concrete input: with an event left at
timestamp 5 and `stop_at = 3`, the loop stops with `now = 3`, state
STOPPED and the timestamp-5 event discarded, matching `run(stop_at=3)`
on events {1, 5} after the timestamp-1 event was dispatched. -/
theorem C2_stop_at_cutoff_witness :
    runLoop (some 3) 1
      (Engine.mk "Unnamed" 1 [⟨5, EventObj.mk 5 "B" [] .ok⟩]
        ⟨.RUNNING, "Stopping at 3"⟩) =
      (.normal (Engine.mk "Unnamed" 3 []
        ⟨.STOPPED, "Simulation max time 3 exceeded"⟩), []) := by
  have h := (C2_stop_at_cutoff
    (Engine.mk "Unnamed" 1 [⟨5, EventObj.mk 5 "B" [] .ok⟩]
      ⟨.RUNNING, "Stopping at 3"⟩)
    ⟨5, EventObj.mk 5 "B" [] .ok⟩ [] 3 0 rfl).1 (by decide)
  exact h

/-- C3: if a dispatched event's `call` raises a `StopEngineError`, the
engine transitions to STOPPED and the run loop halts; if it raises an
`EventError` that is not a `StopEngineError`, the engine transitions to
ABORTED and the loop halts.  In both cases the status message embeds the
event name, the current `now` (the event's timestep) and the error's
message, in the exact formats of `consume_event`.  The hypothesis
`hev : e.isEventError = true` covers both kinds — a `StopEngineError` IS
an `EventError` — and the conclusion shows the stop case wins whenever
`isStopEngineError` holds, reflecting that the `except StopEngineError`
clause is matched first. -/
theorem C3_event_error_routing
    (eng : Engine) (item : QueueItem) (rest : List QueueItem)
    (stop_at : Option Int) (fuel : Nat) (e : PyExc)
    (hq : eng.queue = item :: rest)
    (hout : item.event.outcome = .raises e)
    (hev : e.isEventError = true)
    (hcut : exceededLimit stop_at item.timestep = none) :
    ∃ eng', runLoop stop_at (fuel + 1) eng =
        (.normal eng', [(item.timestep, item.timestep)]) ∧
      eng'.now = item.timestep ∧
      (e.isStopEngineError = true →
        eng'.status = ⟨.STOPPED,
          "Simulation was stopped by event " ++ item.event.name ++ " at t " ++
            toString item.timestep ++ ": " ++ e.msg⟩) ∧
      (e.isStopEngineError = false →
        eng'.status = ⟨.ABORTED,
          "Simulation was aborted by event " ++ item.event.name ++ " at t" ++
            toString item.timestep ++ ": " ++ e.msg⟩) := by
  set eng2 : Engine := { eng with queue := rest, now := item.timestep } with heng2
  have hYnow : (eng2.scheduleYields item.event.yields).now = item.timestep :=
    scheduleYields_now item.event.yields eng2
  by_cases hs : e.isStopEngineError = true
  · have hcons := consume_event_stop eng2 item.event e hout hs
    rw [hYnow] at hcons
    refine ⟨(eng2.scheduleYields item.event.yields).stop
      ("Simulation was stopped by event " ++ item.event.name ++ " at t " ++
        toString item.timestep ++ ": " ++ e.msg), ?_, ?_, ?_, ?_⟩
    · rw [runLoop_step_halt eng item rest stop_at fuel _ hq hcut hcons]
      simp only [Engine.stop, Engine.set_status, hYnow]
    · exact hYnow
    · intro _; rfl
    · intro hsf; rw [hs] at hsf; cases hsf
  · have hs' : e.isStopEngineError = false := by
      simpa using hs
    have hcons := consume_event_abort eng2 item.event e hout hs' hev
    rw [hYnow] at hcons
    refine ⟨(eng2.scheduleYields item.event.yields).abort
      ("Simulation was aborted by event " ++ item.event.name ++ " at t" ++
        toString item.timestep ++ ": " ++ e.msg), ?_, ?_, ?_, ?_⟩
    · rw [runLoop_step_halt eng item rest stop_at fuel _ hq hcut hcons]
      simp only [Engine.abort, Engine.set_status, hYnow]
    · exact hYnow
    · intro hst; rw [hs'] at hst; cases hst
    · intro _; rfl

/-- Witness for C3 at a concrete input: dispatching an event whose `call`
raises `StopEngineError(self, "I have been a bad event")` halts the loop
in state STOPPED with the full message, even though the error is also an
`EventError`. -/
theorem C3_event_error_routing_witness :
    ∃ eng', runLoop none 1
      (Engine.mk "Unnamed" 0
        [⟨0, EventObj.mk 0 "S" [] (.raises (.eventError true "I have been a bad event"))⟩]
        ⟨.RUNNING, "Stopping at Never"⟩) =
        (.normal eng', [(0, 0)]) ∧
      eng'.now = 0 ∧
      ((PyExc.eventError true "I have been a bad event").isStopEngineError = true →
        eng'.status = ⟨.STOPPED,
          "Simulation was stopped by event " ++
            (EventObj.mk 0 "S" []
              (.raises (.eventError true "I have been a bad event"))).name ++
            " at t " ++ toString (0 : Int) ++ ": " ++
            (PyExc.eventError true "I have been a bad event").msg⟩) ∧
      ((PyExc.eventError true "I have been a bad event").isStopEngineError = false →
        eng'.status = ⟨.ABORTED,
          "Simulation was aborted by event " ++
            (EventObj.mk 0 "S" []
              (.raises (.eventError true "I have been a bad event"))).name ++
            " at t" ++ toString (0 : Int) ++ ": " ++
            (PyExc.eventError true "I have been a bad event").msg⟩) :=
  C3_event_error_routing
    (Engine.mk "Unnamed" 0
      [⟨0, EventObj.mk 0 "S" [] (.raises (.eventError true "I have been a bad event"))⟩]
      ⟨.RUNNING, "Stopping at Never"⟩)
    ⟨0, EventObj.mk 0 "S" [] (.raises (.eventError true "I have been a bad event"))⟩
    [] none 0 (.eventError true "I have been a bad event") rfl rfl rfl rfl

/-- C4: if a dispatched event's `call` raises an exception that is neither
`StopEngineError` nor `EventError`, that exception is not caught: the run
loop ends with the exception propagating to the caller of `run()`, and
the engine's status is exactly what it was before the dispatch attempt —
still RUNNING. -/
theorem C4_unmodeled_error_propagates
    (eng : Engine) (item : QueueItem) (rest : List QueueItem)
    (stop_at : Option Int) (fuel : Nat) (e : PyExc)
    (hq : eng.queue = item :: rest)
    (hout : item.event.outcome = .raises e)
    (hev : e.isEventError = false)
    (hcut : exceededLimit stop_at item.timestep = none)
    (hrun : eng.status.state = .RUNNING) :
    ∃ eng', runLoop stop_at (fuel + 1) eng =
        (.raised eng' e, [(item.timestep, item.timestep)]) ∧
      eng'.status = eng.status ∧ eng'.status.state = .RUNNING := by
  set eng2 : Engine := { eng with queue := rest, now := item.timestep } with heng2
  have hYnow : (eng2.scheduleYields item.event.yields).now = item.timestep :=
    scheduleYields_now item.event.yields eng2
  have hYstatus : (eng2.scheduleYields item.event.yields).status = eng.status :=
    scheduleYields_status item.event.yields eng2
  have hcons := consume_event_exc eng2 item.event e hout hev
  refine ⟨eng2.scheduleYields item.event.yields, ?_, hYstatus, ?_⟩
  · rw [runLoop_step_exc eng item rest stop_at fuel _ e hq hcut hcons, hYnow]
  · rw [hYstatus]
    exact hrun

/-- Witness for C4 at a concrete input: an event raising `ValueError`
makes the loop end with that exception propagating and the status still
`(RUNNING, "Stopping at Never")`. -/
theorem C4_unmodeled_error_propagates_witness :
    ∃ eng', runLoop none 1
      (Engine.mk "Unnamed" 0
        [⟨0, EventObj.mk 0 "V" [] (.raises (.other "This is a poorly written event"))⟩]
        ⟨.RUNNING, "Stopping at Never"⟩) =
        (.raised eng' (.other "This is a poorly written event"), [(0, 0)]) ∧
      eng'.status =
        (Engine.mk "Unnamed" 0
          [⟨0, EventObj.mk 0 "V" [] (.raises (.other "This is a poorly written event"))⟩]
          ⟨.RUNNING, "Stopping at Never"⟩).status ∧
      eng'.status.state = .RUNNING :=
  C4_unmodeled_error_propagates
    (Engine.mk "Unnamed" 0
      [⟨0, EventObj.mk 0 "V" [] (.raises (.other "This is a poorly written event"))⟩]
      ⟨.RUNNING, "Stopping at Never"⟩)
    ⟨0, EventObj.mk 0 "V" [] (.raises (.other "This is a poorly written event"))⟩
    [] none 0 (.other "This is a poorly written event") rfl rfl rfl rfl rfl

/-- C5: `schedule` inserts a value satisfying the `EventLike` capability
into the priority queue, growing it by exactly one; any other value is a
silent no-op (no error — `schedule` is total — and the engine, queue
included, is unchanged). -/
theorem C5_schedule_capability_filter (eng : Engine) (v : Value) (t : Option Int) :
    (isEventLike v = true →
      (eng.schedule v t).queue.length = eng.queue.length + 1) ∧
    (isEventLike v = false → eng.schedule v t = eng) := by
  constructor
  · intro h
    cases v with
    | ev e =>
      show (heappush eng.queue _).length = _
      rw [(heappush_perm eng.queue _).length_eq]
      rfl
    | raw s => simp [isEventLike] at h
  · intro h
    cases v with
    | ev e => simp [isEventLike] at h
    | raw s => rfl

/-- Witness for C5 at concrete inputs: scheduling a genuine event on a
fresh engine grows the queue from 0 to 1; scheduling the string
"MyEvent" leaves the engine untouched. -/
theorem C5_schedule_capability_filter_witness :
    ((Engine.init "Unnamed").schedule (.ev (.mk 7 "E" [] .ok)) none).queue.length =
        (Engine.init "Unnamed").queue.length + 1 ∧
    (Engine.init "Unnamed").schedule (.raw "MyEvent") none = Engine.init "Unnamed" :=
  ⟨(C5_schedule_capability_filter (Engine.init "Unnamed")
      (.ev (.mk 7 "E" [] .ok)) none).1 rfl,
   (C5_schedule_capability_filter (Engine.init "Unnamed")
      (.raw "MyEvent") none).2 rfl⟩

/-- Counterexample to C6 as stated: `schedule` computes the effective
timestep with Python `or`, which treats an override of `0` as absent.
Scheduling an event whose own timestep is 5 with `override_timestamp = 0`
enqueues it at 5, not at the claimed 0. -/
theorem C6_override_zero_counterexample :
    ((Engine.init "Unnamed").schedule (.ev (.mk 5 "E" [] .ok)) (some 0)).queue.map
        QueueItem.timestep = [5] ∧ (5 : Int) ≠ 0 :=
  ⟨rfl, by decide⟩

/-- C6 as amended: for every accepted call `schedule(event,
override_timestamp)`, the event is enqueued under `override_timestamp`
whenever a nonzero override is provided, and under `event.timestep` when
the override is absent — or when it is `0`, which the implementation's
`timestep or event.timestep` treats as absent. -/
theorem C6_effective_timestep_amended
    (eng : Engine) (e : EventObj) (t : Option Int) (x : Int) :
    ((t = none ∨ t = some 0) →
      (eng.schedule (.ev e) t).queue = heappush eng.queue ⟨e.timestep, e⟩) ∧
    (t = some x → x ≠ 0 →
      (eng.schedule (.ev e) t).queue = heappush eng.queue ⟨x, e⟩) := by
  constructor
  · rintro (rfl | rfl)
    · rfl
    · show heappush eng.queue ⟨pyOr (some 0) e.timestep, e⟩ = _
      norm_num [pyOr]
  · rintro rfl hx
    show heappush eng.queue ⟨pyOr (some x) e.timestep, e⟩ = _
    rw [pyOr, if_neg hx]

/-- Witness for the amended C6 at concrete inputs: a nonzero override of 3
enqueues at 3; no override enqueues at the event's own timestep 5. -/
theorem C6_effective_timestep_amended_witness :
    ((Engine.init "Unnamed").schedule (.ev (.mk 5 "E" [] .ok)) (some 3)).queue =
      heappush (Engine.init "Unnamed").queue ⟨3, .mk 5 "E" [] .ok⟩ ∧
    ((Engine.init "Unnamed").schedule (.ev (.mk 5 "E" [] .ok)) none).queue =
      heappush (Engine.init "Unnamed").queue ⟨5, .mk 5 "E" [] .ok⟩ :=
  ⟨(C6_effective_timestep_amended (Engine.init "Unnamed") (.mk 5 "E" [] .ok)
      (some 3) 3).2 rfl (by decide),
   (C6_effective_timestep_amended (Engine.init "Unnamed") (.mk 5 "E" [] .ok)
      none 1).1 (Or.inl rfl)⟩

/-- Counterexample to C7 as stated: `now` is not monotonically
non-decreasing when a dispatched event schedules a follow-on with a
timestamp earlier than `now`.  An event at timestamp 5 yielding a
follow-on at timestamp 1 produces the dispatch trace [5, 1]: after the
second dispatch `now = 1`, strictly below the already-dispatched
timestamp 5 — the clock rewinds. -/
theorem C7_clock_rewind_counterexample :
    ((((Engine.init "Unnamed").schedule
        (.ev (.mk 5 "Parent" [some (.mk 1 "Child" [] .ok)] .ok)) none).run
        none 10).2.map Prod.fst = [5, 1]) ∧
    ((((Engine.init "Unnamed").schedule
        (.ev (.mk 5 "Parent" [some (.mk 1 "Child" [] .ok)] .ok)) none).run
        none 10).1.engine.now = 1) ∧
    ¬ ((1 : Int) ≥ 5) :=
  ⟨rfl, rfl, by decide⟩

/-- If the cutoff guard fires, the popped timestep strictly exceeded the
returned stop limit. -/
theorem exceededLimit_gt {stop_at : Option Int} {t s : Int}
    (h : exceededLimit stop_at t = some s) : s < t := by
  cases stop_at with
  | none => simp [exceededLimit] at h
  | some s0 =>
    rw [exceededLimit] at h
    by_cases hgt : t > s0
    · rw [if_pos hgt] at h
      cases h
      exact hgt
    · rw [if_neg hgt] at h
      cases h

/-- C7 as amended: outside the stop_at cutoff, `now` after an iteration
EQUALS the timestep of the event just popped; at the cutoff it equals the
returned stop limit, which is strictly below the popped timestep.  And
provided no dispatched event schedules a follow-on with a timestamp
earlier than its own dispatch time (`NoStale`, with every queue item
enqueued under its event's own timestep) and the entry clock does not
exceed a set stop limit, the values the clock takes — from the entry
`now` through every dispatch timestep to the final `now` — form a
monotonically non-decreasing sequence: logical time never rewinds.  (A
stale follow-on is accepted unadjusted and rewinds the clock, as the
counterexample shows.) -/
theorem C7_clock_monotonic_amended :
    (∀ (eng : Engine) (stop_at : Option Int) (item : QueueItem)
        (rest : List QueueItem),
      eng.queue = item :: rest →
      exceededLimit stop_at item.timestep = none →
      (runLoop stop_at 1 eng).1.engine.now = item.timestep) ∧
    (∀ (eng : Engine) (stop_at : Option Int) (item : QueueItem)
        (rest : List QueueItem) (s : Int),
      eng.queue = item :: rest →
      exceededLimit stop_at item.timestep = some s →
      (runLoop stop_at 1 eng).1.engine.now = s ∧ s < item.timestep) ∧
    (∀ (fuel : Nat) (stop_at : Option Int) (eng : Engine),
      eng.queue.Sorted (fun a b => a.timestep ≤ b.timestep) →
      (∀ i ∈ eng.queue,
        eng.now ≤ i.timestep ∧ i.timestep = i.event.timestep ∧ NoStale i.event) →
      (∀ s : Int, stop_at = some s → eng.now ≤ s) →
      List.Chain' (· ≤ ·)
        ((eng.now :: (runLoop stop_at fuel eng).2.map Prod.fst) ++
          [(runLoop stop_at fuel eng).1.engine.now])) := by
  refine ⟨?_, ?_, runLoop_monotone⟩
  · intro eng stop_at item rest hq hcut
    set eng2 : Engine := { eng with queue := rest, now := item.timestep } with heng2
    have hnow : (eng2.consume_event item.event).1.now = item.timestep :=
      consume_event_now eng2 item.event
    rcases hc : eng2.consume_event item.event with ⟨eng3, sig⟩
    have hnow3 : eng3.now = item.timestep := by rw [hc] at hnow; exact hnow
    cases sig with
    | cont =>
      rw [runLoop_step_cont eng item rest stop_at 0 eng3 hq hcut hc]
      exact hnow3
    | halt =>
      rw [runLoop_step_halt eng item rest stop_at 0 eng3 hq hcut hc]
      exact hnow3
    | exc e =>
      rw [runLoop_step_exc eng item rest stop_at 0 eng3 e hq hcut hc]
      exact hnow3
  · intro eng stop_at item rest s hq hcut
    rw [runLoop_step_cutoff eng item rest stop_at s 0 hq hcut]
    exact ⟨rfl, exceededLimit_gt hcut⟩

/-- Witness for the amended C7 at concrete inputs: dispatching the head
event at timestep 2 (no cutoff) sets `now = 2` exactly; under
`stop_at = 3` a popped timestep-5 event freezes `now` at the lower limit
3 < 5; and a full run in which the timestep-2 event yields a later
follow-on at timestep 3 — satisfying `NoStale` — takes clock values
forming a non-decreasing chain from 0 through the dispatches to the
final `now`. -/
theorem C7_clock_monotonic_amended_witness :
    (runLoop none 1
      (Engine.mk "Unnamed" 0
        [⟨2, EventObj.mk 2 "P" [some (EventObj.mk 3 "C" [] .ok)] .ok⟩]
        ⟨.RUNNING, "Stopping at Never"⟩)).1.engine.now =
      (⟨2, EventObj.mk 2 "P" [some (EventObj.mk 3 "C" [] .ok)] .ok⟩ :
        QueueItem).timestep ∧
    ((runLoop (some 3) 1
      (Engine.mk "Unnamed" 1 [⟨5, EventObj.mk 5 "B" [] .ok⟩]
        ⟨.RUNNING, "Stopping at 3"⟩)).1.engine.now = 3 ∧
      (3 : Int) < (⟨5, EventObj.mk 5 "B" [] .ok⟩ : QueueItem).timestep) ∧
    List.Chain' (· ≤ ·)
      (((Engine.mk "Unnamed" 0
          [⟨2, EventObj.mk 2 "P" [some (EventObj.mk 3 "C" [] .ok)] .ok⟩]
          ⟨.RUNNING, "Stopping at Never"⟩).now ::
        (runLoop none 10
          (Engine.mk "Unnamed" 0
            [⟨2, EventObj.mk 2 "P" [some (EventObj.mk 3 "C" [] .ok)] .ok⟩]
            ⟨.RUNNING, "Stopping at Never"⟩)).2.map Prod.fst) ++
        [(runLoop none 10
          (Engine.mk "Unnamed" 0
            [⟨2, EventObj.mk 2 "P" [some (EventObj.mk 3 "C" [] .ok)] .ok⟩]
            ⟨.RUNNING, "Stopping at Never"⟩)).1.engine.now]) := by
  refine ⟨?_, ?_, ?_⟩
  · exact C7_clock_monotonic_amended.1 _ none _ [] rfl rfl
  · exact C7_clock_monotonic_amended.2.1 _ (some 3) _ [] 3 rfl (by decide)
  · refine C7_clock_monotonic_amended.2.2 10 none _ (by simp) ?_ ?_
    · intro i hi
      rw [List.mem_singleton] at hi
      subst hi
      refine ⟨by decide, rfl, ?_⟩
      refine NoStale.mk 2 "P" [some (EventObj.mk 3 "C" [] .ok)] .ok ?_ ?_
      · intro e he
        rw [List.mem_singleton] at he
        injection he with he
        subst he
        decide
      · intro e he
        rw [List.mem_singleton] at he
        injection he with he
        subst he
        exact NoStale.mk 3 "C" [] .ok
          (fun e2 he2 => absurd he2 (List.not_mem_nil _))
          (fun e2 he2 => absurd he2 (List.not_mem_nil _))
    · intro s h
      cases h

/-- A generator that exhausts normally leaves the engine as the yields left
it and signals continuation. -/
theorem consume_event_ok (eng : Engine) (ev : EventObj)
    (hout : ev.outcome = .ok) :
    eng.consume_event ev = (eng.scheduleYields ev.yields, .cont) := by
  rw [Engine.consume_event, hout]

/-- When `consume_event` tells the loop to halt, it has just set the status
to STOPPED (stop error) or ABORTED (general event error). -/
theorem consume_event_halt_status (eng : Engine) (ev : EventObj) (eng3 : Engine)
    (h : eng.consume_event ev = (eng3, .halt)) :
    eng3.status.state = .STOPPED ∨ eng3.status.state = .ABORTED := by
  rcases ho : ev.outcome with _ | e
  · rw [consume_event_ok eng ev ho] at h
    injection h with h1 h2
    cases h2
  · by_cases hs : e.isStopEngineError = true
    · rw [consume_event_stop eng ev e ho hs] at h
      injection h with h1 h2
      subst h1
      exact Or.inl rfl
    · have hs' : e.isStopEngineError = false := by simpa using hs
      by_cases he : e.isEventError = true
      · rw [consume_event_abort eng ev e ho hs' he] at h
        injection h with h1 h2
        subst h1
        exact Or.inr rfl
      · have he' : e.isEventError = false := by simpa using he
        rw [consume_event_exc eng ev e ho he'] at h
        injection h with h1 h2
        cases h2

/-- C8: for `run()` with no stop time — against any engine state and at
any point of the loop — an exhausted queue makes the engine transition to
FINISHED with a message citing `now`; and whenever the loop returns
normally in state FINISHED, its final message cites the final `now`,
which equals the timestamp of the last dispatched event (or is untouched
when nothing was dispatched). -/
theorem C8_queue_exhaustion_finishes (fuel : Nat) :
    (∀ eng : Engine, eng.queue = [] →
      runLoop none (fuel + 1) eng =
        (.normal (eng.finish ("Simulation finished at " ++ toString eng.now)), [])) ∧
    (∀ (eng eng' : Engine) (tr : List (Int × Int)),
      runLoop none fuel eng = (.normal eng', tr) →
      eng'.status.state = .FINISHED →
      eng'.status.message = "Simulation finished at " ++ toString eng'.now ∧
      (tr = [] → eng'.now = eng.now) ∧
      (∀ p, tr.getLast? = some p → eng'.now = p.1)) := by
  constructor
  · intro eng hq
    rw [runLoop, hq]
  · induction fuel with
    | zero =>
      intro eng eng' tr h hfin
      rw [runLoop] at h
      injection h with h1 h2
      cases h1
    | succ fuel ih =>
      intro eng eng' tr h hfin
      rcases hq : eng.queue with _ | ⟨item, rest⟩
      · rw [runLoop, hq] at h
        injection h with h1 h2
        injection h1 with h1
        subst h1
        subst h2
        exact ⟨rfl, fun _ => rfl, fun p hp => by cases hp⟩
      · rw [runLoop, hq] at h
        simp only [exceededLimit] at h
        set eng2 : Engine := { eng with queue := rest, now := item.timestep }
          with heng2
        rcases hc : eng2.consume_event item.event with ⟨eng3, sig⟩
        rw [hc] at h
        have hnow3 : eng3.now = item.timestep := by
          have := consume_event_now eng2 item.event
          rw [hc] at this
          exact this
        cases sig with
        | cont =>
          injection h with h1 h2
          have hr : runLoop none fuel eng3 =
              (.normal eng', (runLoop none fuel eng3).2) := by
            rw [← h1]
          have IH := ih eng3 eng' (runLoop none fuel eng3).2 hr hfin
          refine ⟨IH.1, ?_, ?_⟩
          · intro htr
            rw [← h2] at htr
            cases htr
          · intro p hp
            rw [← h2] at hp
            rcases hr2 : (runLoop none fuel eng3).2 with _ | ⟨b, bs⟩
            · rw [hr2] at hp
              simp only [List.getLast?_singleton, Option.some.injEq] at hp
              subst hp
              exact (IH.2.1 hr2).trans hnow3
            · rw [hr2, List.getLast?_cons_cons] at hp
              rw [← hr2] at hp
              exact IH.2.2 p hp
        | halt =>
          injection h with h1 h2
          injection h1 with h1
          subst h1
          rcases consume_event_halt_status eng2 item.event eng3 hc with hst | hst <;>
            rw [hfin] at hst <;> cases hst
        | exc e =>
          injection h with h1 h2
          cases h1

/-- Witness for C8 at the spec's concrete input: one event at timestamp 2
yielding follow-ons at timestamps 2, 4, 6 ends `run()` (no stop time) in
state FINISHED, message "Simulation finished at 6", with `now = 6` equal
to the last dispatched timestamp. -/
theorem C8_queue_exhaustion_finishes_witness :
    (Engine.mk "Unnamed" 6 [] ⟨.FINISHED, "Simulation finished at 6"⟩).status.message =
      "Simulation finished at " ++
        toString (Engine.mk "Unnamed" 6 [] ⟨.FINISHED, "Simulation finished at 6"⟩).now ∧
    (Engine.mk "Unnamed" 6 [] ⟨.FINISHED, "Simulation finished at 6"⟩).now = (6 : Int) ∧
    ((Engine.init "Unnamed").schedule
      (.ev (.mk 2 "Top Event"
        [some (.mk 2 "Y0" [] .ok), some (.mk 4 "Y1" [] .ok),
         some (.mk 6 "Y2" [] .ok)] .ok)) none).run none 10 =
      (.normal (Engine.mk "Unnamed" 6 [] ⟨.FINISHED, "Simulation finished at 6"⟩),
       [(2, 2), (2, 2), (4, 4), (6, 6)]) := by
  have h := (C8_queue_exhaustion_finishes 10).2
    (((Engine.init "Unnamed").schedule
      (.ev (.mk 2 "Top Event"
        [some (.mk 2 "Y0" [] .ok), some (.mk 4 "Y1" [] .ok),
         some (.mk 6 "Y2" [] .ok)] .ok)) none).set_status .RUNNING
      (runMessage none))
    (Engine.mk "Unnamed" 6 [] ⟨.FINISHED, "Simulation finished at 6"⟩)
    [(2, 2), (2, 2), (4, 4), (6, 6)] rfl rfl
  exact ⟨h.1, h.2.2 (6, 6) rfl, rfl⟩

/-- C9: dispatching an unbalanced transaction (total credits ≠ total
debits) raises no error — `call` is total — and leaves every account's
balance untouched, the ledger being returned unchanged; only when the
transaction is balanced are the credit and debit line items applied to
the account balances. -/
theorem C9_unbalanced_transaction_noop (t : Transaction) (L : Ledger) :
    (t.is_balanced = false → t.call L = L) ∧
    (t.is_balanced = true →
      t.call L =
        t.debits.foldl (fun acc item => acc.debit item.account item.amount)
          (t.credits.foldl
            (fun acc item => acc.credit item.account item.amount) L)) := by
  constructor
  · intro h
    rw [Transaction.call, h]
    rfl
  · intro h
    rw [Transaction.call, h]
    rfl

/-- Witness for C9 at a concrete input: a transaction with a single 5.0
debit and no credits is unbalanced, and dispatching it returns the ledger
unchanged. -/
theorem C9_unbalanced_transaction_noop_witness :
    Transaction.call ⟨0, "T", [⟨"Cash", 5⟩], []⟩
        ⟨fun _ => .ASSET, fun _ => 10⟩ =
      ⟨fun _ => .ASSET, fun _ => 10⟩ :=
  (C9_unbalanced_transaction_noop ⟨0, "T", [⟨"Cash", 5⟩], []⟩
    ⟨fun _ => .ASSET, fun _ => 10⟩).1
    (by norm_num [Transaction.is_balanced, Transaction.total_credits,
      Transaction.total_debits])

/-- Witness for C1 at a concrete input: events at timestamps 3 and 1,
scheduled in that order, are dispatched as 1 then 3, with `now` tracking
each timestamp. -/
theorem C1_run_dispatch_order_witness :
    let r := ((Engine.init "Unnamed").scheduleAll
      [EventObj.mk 3 "A" [] .ok, EventObj.mk 1 "B" [] .ok]).run none 3
    (r.2.map Prod.fst).Sorted (· < ·) ∧
    (r.2.map Prod.fst).Perm
      ([EventObj.mk 3 "A" [] .ok, EventObj.mk 1 "B" [] .ok].map EventObj.timestep) ∧
    r.2.map Prod.snd = r.2.map Prod.fst :=
  C1_run_dispatch_order [EventObj.mk 3 "A" [] .ok, EventObj.mk 1 "B" [] .ok] 3
    (by decide)
    (by intro e he; fin_cases he <;> exact ⟨rfl, rfl⟩)
    (by decide)

end TFin

